import Mathlib

/-
  Verification of the task-discovery core of vscode-taskexplorer
  (src/taskProviderYarn.ts together with its util helpers).

  The embedding follows the source: the jsonc-parser visitor callbacks of
  findTargets become a step function over scanner events, the module-level
  cachedTasks variable becomes an explicit CacheState threaded through
  invalidateTasksCacheYarn and provideYarnfiles, and the host file system
  (readFile, pathExists, getWorkspaceFolder, findFiles) becomes an abstract
  FS record.
-/

namespace TaskExplorer

/-- File-system paths, modelled as raw character lists so that the substring
arithmetic of createYarnTask can be reasoned about directly. -/
abbrev Path := List Char

/-- JSON literal values delivered by the scanner (string, number, boolean,
null); only the string case matters to the visitor, which checks
typeof value before using a label value. -/
inductive JLit where
  | str (s : String)
  | num (n : Int)
  | boolean (b : Bool)
  | null
deriving DecidableEq

/-- Modelled from the spec: the Token Scanner (the jsonc-parser visit
function, an external dependency whose source is not part of src/) emits a
forward-only sequence of structural events with byte offsets: object and
array delimiters, property names, literal values, and an Error event on a
syntax error, after which the scan terminates gracefully. -/
inductive JEvent where
  | objBegin (offset : Nat)
  | objEnd (offset : Nat)
  | arrBegin (offset : Nat)
  | arrEnd (offset : Nat)
  | prop (name : String) (offset : Nat)
  | lit (value : JLit) (offset : Nat)
  | err (offset : Nat)
deriving DecidableEq

/-- JavaScript property-key coercion: the source writes scripts[script]
where the local variable script may still be unassigned (undefined); a
JavaScript object key of undefined is coerced to the string "undefined". -/
def keyOf : Option String → String
  | some s => s
  | none => "undefined"

/-- JavaScript object assignment m[k] = v: if the key is present its value
is updated in place (insertion order kept), otherwise the pair is appended. -/
def smSet : List (String × JLit) → String → JLit → List (String × JLit)
  | [], k, v => [(k, v)]
  | (k1, v1) :: rest, k, v =>
      if k1 = k then (k, v) :: rest else (k1, v1) :: smSet rest k v

/-- JavaScript object lookup m[k]. -/
def smGet : List (String × JLit) → String → Option JLit
  | [], _ => none
  | (k1, v1) :: rest, k => if k1 = k then some v1 else smGet rest k

/-- The keys of a string map, in insertion order (Object.keys). -/
def smKeys (m : List (String × JLit)) : List String := m.map Prod.fst

/-- The local state of findTargets in src/taskProviderYarn.ts: the mutable
variables scriptOffset, inScripts, inTasks, inTaskLabel, script and the
accumulated scripts map captured by the JSONVisitor closures. The variable
script is declared without an initial value, hence Option String here. -/
structure FTState where
  scriptOffset : Nat
  inScripts : Bool
  inTasks : Bool
  inTaskLabel : Option String
  script : Option String
  scripts : List (String × JLit)
deriving DecidableEq

/-- One visitor callback of findTargets, by event kind, transcribed from the
JSONVisitor literal in src/taskProviderYarn.ts lines 162-211. onError
returns scriptOffset and changes nothing; onObjectBegin, onArrayBegin and
onArrayEnd have no handlers. -/
def ftStep (st : FTState) (e : JEvent) : FTState :=
  match e with
  | .objEnd _ =>
      -- onObjectEnd: if (inScripts) inScripts = false
      if st.inScripts then { st with inScripts := false } else st
  | .lit v _ =>
      -- onLiteralValue
      if st.inScripts then
        { st with scripts := smSet st.scripts (keyOf st.script) v }
      else if st.inTaskLabel.isSome then
        let st1 :=
          match v with
          | .str s =>
              if st.inTaskLabel = some "label" then
                { st with scripts := smSet st.scripts (keyOf st.script) (.str s) }
              else st
          | _ => st
        { st1 with inTaskLabel := none }
      else st
  | .prop p off =>
      -- onObjectProperty
      if p = "scripts" then { st with inScripts := true }
      else if st.inScripts then { st with script := some p }
      else if p = "tasks" then
        { st with inTasks := true,
                  scriptOffset :=
                    if st.inTaskLabel = none then off else st.scriptOffset }
      else if p = "label" ∧ st.inTasks = true ∧ st.inTaskLabel = none then
        { st with inTaskLabel := some "label" }
      else
        { st with inTaskLabel := none }
  | _ => st

/-- Initial findTargets state: scriptOffset = 0, all flags clear, script
unassigned, scripts empty. -/
def initFT : FTState := ⟨0, false, false, none, none, []⟩

/-- Run the findTargets visitor over a scanner event sequence. -/
def ftRun (evs : List JEvent) : FTState := evs.foldl ftStep initFT

/-- The scripts map findTargets returns for a given event sequence. -/
def ftScripts (evs : List JEvent) : List (String × JLit) := (ftRun evs).scripts

/-- The host environment seen by the provider. pathExists is the existence
check util.pathExists; read models util.readFile composed with the Token
Scanner, delivering the event sequence of the file text (the scanner itself
is modelled from the spec, see JEvent); folderOf is
workspace.getWorkspaceFolder; foundFiles is the concatenated result of the
workspace.findFiles glob over all workspace folders, in order; isExcluded is
util.isExcluded. -/
structure FS where
  pathExists : Path → Bool
  read : Path → List JEvent
  folderOf : Path → Option Path
  foundFiles : List Path
  isExcluded : Path → Bool

/-- findTargets of src/taskProviderYarn.ts: read the file at fsPath and run
the visitor over its scanner events, returning the scripts map. -/
def findTargets (fs : FS) (fsPath : Path) : List (String × JLit) :=
  ftScripts (fs.read fsPath)

/-- The vscode TaskGroup constants used by the provider and the tree view. -/
inductive TaskGroup where
  | build
  | clean
  | rebuild
  | test
deriving DecidableEq

/-- The YarnTaskDefinition interface: type is always "yarn"; script is the
target name; path is the folder-relative directory; fileName and uri
identify the source file. -/
structure YarnTaskDefinition where
  type : String
  script : String
  path : Path
  fileName : Path
  uri : Path
deriving DecidableEq

/-- A materialized vscode Task as built by createYarnTask: definition kind,
scope folder, name, source, the ShellExecution command and arguments, its
working directory, and the group later assigned by readYarnfile. -/
structure VTask where
  definition : YarnTaskDefinition
  scope : Path
  name : String
  source : String
  execCommand : String
  execArgs : List String
  execCwd : Path
  group : Option TaskGroup
deriving DecidableEq

/-- uri.path.substring(0, uri.path.lastIndexOf(Char.slash) + 1): the
directory part of a path, keeping the trailing slash; empty when the path
has no slash. -/
def dirPart (s : Path) : Path :=
  ((s.reverse).dropWhile (fun c => c ≠ '/')).reverse

/-- path.basename: everything after the last slash. -/
def baseName (s : Path) : Path :=
  ((s.reverse).takeWhile (fun c => c ≠ '/')).reverse

/-- Node path.dirname for slash-separated paths: the directory part without
its trailing slash; a dot when there is no directory part, the root slash
when the directory part is the root. -/
def dirname (s : Path) : Path :=
  let d := dirPart s
  if d = [] then ['.'] else if d = ['/'] then ['/'] else d.dropLast

/-- getCommand inside createYarnTask: every conditional branch is commented
out in the source and the hard-coded string yarn is returned; the folder,
relativePath and cmd parameters are ignored. -/
def getCommand : String := "yarn"

/-- getRelativePath inside createYarnTask (folder is always non-null at the
call site): absolutePath = uri.path up to and including the last slash,
then the prefix of rootUri.path.length + 1 characters is dropped. -/
def getRelativePath (folderPath uriPath : Path) : Path :=
  (dirPart uriPath).drop (folderPath.length + 1)

/-- createYarnTask of src/taskProviderYarn.ts lines 221-273: builds the
definition kind (path set to the relative path only when non-empty, which
coincides with the empty default otherwise), cwd = path.dirname of the file,
args = [getCommand(...), target], execution = ShellExecution of npx with
those args. The file content is not a parameter: nothing in the command can
come from it. -/
def createYarnTask (target cmd : String) (folderPath uriPath : Path) : VTask :=
  let relativePath := getRelativePath folderPath uriPath
  let kindPath := if relativePath.length ≠ 0 then relativePath else []
  { definition :=
      { type := "yarn"
        script := target
        path := kindPath
        fileName := baseName uriPath
        uri := uriPath }
    scope := folderPath
    name := target
    source := "yarn"
    execCommand := "npx"
    execArgs := [getCommand, target]
    execCwd := dirname uriPath
    group := none }

/-- readYarnfile: resolve the workspace folder of the uri (empty result when
none), extract the targets, and materialize one task per key of the scripts
map (Object.keys order), each assigned TaskGroup.Build; the cmd argument
passed to createYarnTask is the template string of the key itself. -/
def readYarnfile (fs : FS) (uri : Path) : List VTask :=
  match fs.folderOf uri with
  | none => []
  | some folder =>
      (findTargets fs uri).map fun kv =>
        { createYarnTask kv.1 kv.1 folder uri with group := some TaskGroup.build }

/-- The folder loop body of detectYarnfiles: process each found file unless
it is excluded or already visited, accumulating tasks in order and adding
processed files to the visited set. -/
def detectGo (fs : FS) : List Path → List Path → List VTask
  | [], _ => []
  | p :: rest, visited =>
      if fs.isExcluded p = false ∧ ¬ p ∈ visited then
        readYarnfile fs p ++ detectGo fs rest (p :: visited)
      else
        detectGo fs rest visited

/-- detectYarnfiles: one full discovery pass over the found files. -/
def detectYarnfiles (fs : FS) : List VTask := detectGo fs fs.foundFiles []

/-- The module-level mutable variable cachedTasks: undefined (uninitialized)
or an array of tasks. An empty array is truthy in JavaScript, hence distinct
from undefined. -/
structure CacheState where
  cachedTasks : Option (List VTask)
deriving DecidableEq

/-- The result of one provideYarnfiles call: the returned tasks, the cache
state afterwards, and whether a full discovery pass ran. -/
structure ProvideResult where
  tasks : List VTask
  state : CacheState
  ran : Bool
deriving DecidableEq

/-- provideYarnfiles: if (not cachedTasks) cachedTasks = await
detectYarnfiles(); return cachedTasks. -/
def provideYarnfiles (fs : FS) (st : CacheState) : ProvideResult :=
  match st.cachedTasks with
  | none => let ts := detectYarnfiles fs; ⟨ts, ⟨some ts⟩, true⟩
  | some ts => ⟨ts, st, false⟩

/-- invalidateTasksCacheYarn: when a uri is given and the cache is
initialized, remove each cached task whose definition uri equals the given
path (rmvTasks collected then removed one by one via util.removeFromArray,
which on a cache of distinct task objects equals this filter), re-read the
file and append its fresh tasks when it still exists, and keep the result
only when non-empty; in every other case (no uri, uninitialized cache, or
empty result) cachedTasks becomes undefined. The second component records
which file contents the call read (pathExists is an existence check, not a
content read). -/
def invalidateTasksCacheYarn (fs : FS) (opt : Option Path) (st : CacheState) :
    CacheState × List Path :=
  match opt, st.cachedTasks with
  | some u, some ts =>
      let remaining := ts.filter (fun t => ¬ t.definition.uri = u)
      let fresh := if fs.pathExists u then readYarnfile fs u else []
      let reads := if fs.pathExists u then [u] else []
      let newTs := remaining ++ fresh
      if newTs.length > 0 then (⟨some newTs⟩, reads) else (⟨none⟩, reads)
  | _, _ => (⟨none⟩, [])

/-! Scanner event serializations of concrete and schematic inputs

Modelled from the spec: for well-formed text the Token Scanner emits the
structural events below in document order; for malformed text it emits the
events of the well-formed part followed by an Error event and stops. -/

/-- The property and string-literal events of a flat key/value block, in
document order. -/
def pairEvents (pairs : List (String × String)) : List JEvent :=
  pairs.flatMap fun kv => [JEvent.prop kv.1 0, JEvent.lit (.str kv.2) 0]

/-- Scanner events of a scripts-style document: a root object holding one
property named scripts whose value is a flat object of string-valued
pairs. -/
def scriptsEvents (pairs : List (String × String)) : List JEvent :=
  JEvent.objBegin 0 :: JEvent.prop "scripts" 0 :: JEvent.objBegin 0 ::
    (pairEvents pairs ++ [JEvent.objEnd 0, JEvent.objEnd 0])

/-- Scanner events of the tasks-array document whose text is
(open-brace) "tasks": [ (open-brace) "label": "build" (close-brace) ,
(open-brace) "label": "test" (close-brace) ] (close-brace) — two task
entries, each carrying a string label. -/
def tasksLabelEvents : List JEvent :=
  [JEvent.objBegin 0, JEvent.prop "tasks" 1, JEvent.arrBegin 10,
   JEvent.objBegin 11, JEvent.prop "label" 12, JEvent.lit (.str "build") 21,
   JEvent.objEnd 30,
   JEvent.objBegin 33, JEvent.prop "label" 34, JEvent.lit (.str "test") 43,
   JEvent.objEnd 51,
   JEvent.arrEnd 52, JEvent.objEnd 53]

/-- Scanner events of the truncated malformed document whose text is
(open-brace) "scripts": (open-brace) "build": (close-brace) — the value of
build is missing, so the scanner reports an error at the close brace and
stops. -/
def malformedEvents : List JEvent :=
  [JEvent.objBegin 0, JEvent.prop "scripts" 1, JEvent.objBegin 12,
   JEvent.prop "build" 13, JEvent.err 22]

/-- Scanner events of the document whose text is (open-brace) "scripts":
(open-brace) "a": (open-brace) "b": "x" (close-brace) , "c": "y"
(close-brace) (close-brace) — the value of key a is itself an object, and
key c is a sibling of a inside the scripts object. -/
def nestedScriptsEvents : List JEvent :=
  [JEvent.objBegin 0, JEvent.prop "scripts" 1, JEvent.objBegin 12,
   JEvent.prop "a" 13, JEvent.objBegin 18,
   JEvent.prop "b" 19, JEvent.lit (.str "x") 24,
   JEvent.objEnd 27,
   JEvent.prop "c" 30, JEvent.lit (.str "y") 35,
   JEvent.objEnd 38, JEvent.objEnd 39]

/-- The prefix of nestedScriptsEvents up to and including the close of the
nested object value of key a; the scripts object itself is still open. -/
def nestedScriptsPre : List JEvent :=
  [JEvent.objBegin 0, JEvent.prop "scripts" 1, JEvent.objBegin 12,
   JEvent.prop "a" 13, JEvent.objBegin 18,
   JEvent.prop "b" 19, JEvent.lit (.str "x") 24,
   JEvent.objEnd 27]

/-- Scanner events of a document in which a property named scripts occurs
only at nesting depth two: (open-brace) "x": (open-brace) "scripts": ... -/
def deepScriptsPre : List JEvent :=
  [JEvent.objBegin 0, JEvent.prop "x" 1, JEvent.objBegin 6,
   JEvent.prop "scripts" 7]

/-- The value of the last occurrence of key k in a key/value list, none when
the key does not occur. -/
def lastLookup : List (String × String) → String → Option String
  | [], _ => none
  | (k1, v1) :: rest, k =>
      match lastLookup rest k with
      | some v => some v
      | none => if k1 = k then some v1 else none

/-! Concrete fixtures for witnesses and counterexamples -/

/-- The path of file A in the witness scenarios. -/
def pathA : Path := "/w/a/package.json".data

/-- The path of file B in the witness scenarios. -/
def pathB : Path := "/w/b/package.json".data

/-- A cached task extracted from file A. -/
def taskA : VTask :=
  { createYarnTask "compile" "compile" "/w".data pathA with
      group := some TaskGroup.build }

/-- A cached task extracted from file B. -/
def taskB : VTask :=
  { createYarnTask "serve" "serve" "/w".data pathB with
      group := some TaskGroup.build }

/-- A file system on which file A has been deleted. -/
def fsDeleted : FS :=
  { pathExists := fun _ => false
    read := fun _ => []
    folderOf := fun _ => none
    foundFiles := []
    isExcluded := fun _ => false }

/-- A file system holding one config file whose scripts object has the two
keys build and clean. -/
def fsBuildClean : FS :=
  { pathExists := fun _ => true
    read := fun _ => scriptsEvents [("build", "tsc -p ."), ("clean", "rimraf out")]
    folderOf := fun _ => some "/repo".data
    foundFiles := ["/repo/sub/package.json".data]
    isExcluded := fun _ => false }

/-- The config file path of fsBuildClean. -/
def pathBC : Path := "/repo/sub/package.json".data

/-! Path lemmas for createYarnTask -/

theorem dropWhile_append_stop (p : Char → Bool) (y : Char) (hy : p y = false)
    (xs ys : List Char) :
    (xs ++ y :: ys).dropWhile p = xs.dropWhile p ++ y :: ys := by
  induction xs with
  | nil => simp [List.dropWhile, hy]
  | cons x xs ih =>
      by_cases h : p x <;> simp [List.dropWhile, h, ih]

theorem takeWhile_append_stop (p : Char → Bool) (y : Char) (hy : p y = false)
    (xs ys : List Char) :
    (xs ++ y :: ys).takeWhile p = xs.takeWhile p := by
  induction xs with
  | nil => simp [List.takeWhile, hy]
  | cons x xs ih =>
      by_cases h : p x <;> simp [List.takeWhile, h, ih]

theorem dirPart_append (a b : Path) :
    dirPart (a ++ '/' :: b) = a ++ '/' :: dirPart b := by
  have h : (fun c => decide (c ≠ '/')) '/' = false := by decide
  simp only [dirPart, List.reverse_append, List.reverse_cons, List.append_assoc,
    List.singleton_append]
  rw [dropWhile_append_stop _ _ h]
  simp

theorem baseName_append (a b : Path) :
    baseName (a ++ '/' :: b) = baseName b := by
  have h : (fun c => decide (c ≠ '/')) '/' = false := by decide
  simp only [baseName, List.reverse_append, List.reverse_cons, List.append_assoc,
    List.singleton_append]
  rw [takeWhile_append_stop _ _ h]

theorem dirPart_append_baseName (s : Path) : dirPart s ++ baseName s = s := by
  simp only [dirPart, baseName]
  rw [← List.reverse_append, List.takeWhile_append_dropWhile, List.reverse_reverse]

theorem dirPart_eq_nil (b : Path) (h : ¬ '/' ∈ b) : dirPart b = [] := by
  simp only [dirPart, List.reverse_eq_nil_iff, List.dropWhile_eq_nil_iff,
    List.mem_reverse, decide_eq_true_eq]
  intro x hx hxe
  exact h (hxe ▸ hx)

theorem dropWhile_head_false (p : Char → Bool) (l : List Char) (x : Char)
    (t : List Char) (h : l.dropWhile p = x :: t) : p x = false := by
  induction l with
  | nil => simp [List.dropWhile] at h
  | cons a l ih =>
      by_cases hp : p a
      · simp only [List.dropWhile_cons, hp, if_true] at h
        exact ih h
      · simp only [List.dropWhile_cons, hp, if_false] at h
        cases h
        simpa using hp

theorem dirPart_ends_slash (s : Path) :
    dirPart s = [] ∨ ∃ d : Path, dirPart s = d ++ ['/'] := by
  rcases hd : (s.reverse).dropWhile (fun c => c ≠ '/') with _ | ⟨x, t⟩
  · left
    show ((s.reverse).dropWhile (fun c => c ≠ '/')).reverse = []
    rw [hd]
    rfl
  · right
    have hx : x = '/' := by
      have := dropWhile_head_false _ _ _ _ hd
      simpa using this
    refine ⟨t.reverse, ?_⟩
    show ((s.reverse).dropWhile (fun c => c ≠ '/')).reverse = t.reverse ++ ['/']
    rw [hd, hx]
    simp

/-! General lemmas about the visitor run -/

/-- Appending one event steps the final state once. -/
theorem ftRun_append_one (evs : List JEvent) (e : JEvent) :
    ftRun (evs ++ [e]) = ftStep (ftRun evs) e := by
  simp [ftRun, List.foldl_append]

/-- The Error handler leaves the whole visitor state unchanged. -/
theorem ftStep_err (st : FTState) (o : Nat) : ftStep st (.err o) = st := rfl

/-! String-map lemmas -/

theorem smGet_smSet_self (m : List (String × JLit)) (k : String) (v : JLit) :
    smGet (smSet m k v) k = some v := by
  induction m with
  | nil => simp [smSet, smGet]
  | cons kv rest ih =>
      rcases kv with ⟨k1, v1⟩
      by_cases h : k1 = k <;> simp [smSet, smGet, h, ih]

theorem smGet_smSet_ne (m : List (String × JLit)) (k : String) (v : JLit)
    (k2 : String) (h : ¬ k2 = k) : smGet (smSet m k v) k2 = smGet m k2 := by
  have h2 : ¬ k = k2 := fun he => h he.symm
  induction m with
  | nil => simp [smSet, smGet, h2]
  | cons kv rest ih =>
      rcases kv with ⟨k1, v1⟩
      by_cases h1 : k1 = k
      · subst h1
        simp [smSet, smGet, h2]
      · simp [smSet, smGet, h1, ih]

theorem smKeys_smSet (m : List (String × JLit)) (k : String) (v : JLit) :
    smKeys (smSet m k v) =
      if k ∈ smKeys m then smKeys m else smKeys m ++ [k] := by
  induction m with
  | nil => simp [smSet, smKeys]
  | cons kv rest ih =>
      rcases kv with ⟨k1, v1⟩
      by_cases h : k1 = k
      · subst h
        have hset : smSet ((k1, v1) :: rest) k1 v = (k1, v) :: rest := by
          simp [smSet]
        rw [hset, if_pos (show k1 ∈ smKeys ((k1, v1) :: rest) by simp [smKeys])]
        rfl
      · have hset : smSet ((k1, v1) :: rest) k v = (k1, v1) :: smSet rest k v := by
          simp [smSet, h]
        rw [hset, show smKeys ((k1, v1) :: smSet rest k v)
            = k1 :: smKeys (smSet rest k v) from rfl, ih]
        have hne : ¬ k = k1 := fun he => h he.symm
        by_cases hm : k ∈ smKeys rest
        · rw [if_pos hm,
            if_pos (show k ∈ smKeys ((k1, v1) :: rest) from
              List.mem_cons_of_mem _ hm)]
          rfl
        · rw [if_neg hm, if_neg (show ¬ k ∈ smKeys ((k1, v1) :: rest) from ?_)]
          · rfl
          · intro hc
            rcases List.mem_cons.mp hc with hc | hc
            exacts [hne hc, hm hc]

theorem smKeys_smSet_nodup (m : List (String × JLit)) (k : String) (v : JLit)
    (h : (smKeys m).Nodup) : (smKeys (smSet m k v)).Nodup := by
  rw [smKeys_smSet]
  by_cases hm : k ∈ smKeys m
  · simpa [hm] using h
  · simp only [hm, if_false]
    simp [List.nodup_append, h, hm]

/-- The scripts map produced by folding JavaScript object assignment over a
pair list. -/
theorem smGet_foldl (pairs : List (String × String)) (m : List (String × JLit))
    (k : String) :
    smGet (pairs.foldl (fun m kv => smSet m kv.1 (.str kv.2)) m) k =
      match lastLookup pairs k with
      | some v => some (JLit.str v)
      | none => smGet m k := by
  induction pairs generalizing m with
  | nil => rfl
  | cons kv rest ih =>
      rcases kv with ⟨k1, v1⟩
      simp only [List.foldl_cons, lastLookup]
      rw [ih]
      rcases hl : lastLookup rest k with _ | v
      · by_cases hk : k1 = k
        · subst hk
          simp [smGet_smSet_self]
        · simp [hk, smGet_smSet_ne _ _ _ _ fun he => hk he.symm]
      · simp

theorem smKeys_foldl_nodup (pairs : List (String × String))
    (m : List (String × JLit)) (h : (smKeys m).Nodup) :
    (smKeys (pairs.foldl (fun m kv => smSet m kv.1 (.str kv.2)) m)).Nodup := by
  induction pairs generalizing m with
  | nil => exact h
  | cons kv rest ih =>
      simp only [List.foldl_cons]
      exact ih _ (smKeys_smSet_nodup _ _ _ h)

/-! Lemmas on the visitor over scripts-style event sequences -/

/-- Inside the scripts context (inScripts set, no pending task label), the
flat key/value events of a scripts block fold JavaScript object assignment
over the accumulated map, provided no key is itself named scripts; the
context flags are preserved. -/
theorem ftFold_pairs (pairs : List (String × String)) :
    ∀ st : FTState, st.inScripts = true → st.inTaskLabel = none →
      (∀ p ∈ pairs, ¬ p.1 = "scripts") →
      ((pairEvents pairs).foldl ftStep st).scripts =
          pairs.foldl (fun m kv => smSet m kv.1 (.str kv.2)) st.scripts
        ∧ ((pairEvents pairs).foldl ftStep st).inScripts = true
        ∧ ((pairEvents pairs).foldl ftStep st).inTaskLabel = none := by
  induction pairs with
  | nil =>
      intro st h1 h2 _
      exact ⟨rfl, h1, h2⟩
  | cons kv rest ih =>
      intro st h1 h2 hk
      have hpe : pairEvents (kv :: rest) =
          JEvent.prop kv.1 0 :: JEvent.lit (.str kv.2) 0 :: pairEvents rest := by
        simp [pairEvents]
      have hk1 : ¬ kv.1 = "scripts" := hk kv (List.mem_cons_self _ _)
      have e1 : ftStep st (JEvent.prop kv.1 0) = { st with script := some kv.1 } := by
        simp [ftStep, hk1, h1]
      have e2 : ftStep { st with script := some kv.1 } (JEvent.lit (.str kv.2) 0) =
          { st with script := some kv.1,
                    scripts := smSet st.scripts kv.1 (.str kv.2) } := by
        simp [ftStep, h1, keyOf]
      rw [hpe]
      simp only [List.foldl_cons]
      rw [e1, e2]
      have hst := ih { st with script := some kv.1, scripts := smSet st.scripts kv.1 (.str kv.2) } h1 h2 (fun p hp => hk p (List.mem_cons_of_mem _ hp))
      simpa using hst

/-- An ObjectEnd event never changes the accumulated scripts map. -/
theorem ftStep_objEnd_scripts (st : FTState) (o : Nat) :
    (ftStep st (.objEnd o)).scripts = st.scripts := by
  by_cases h : st.inScripts <;> simp [ftStep, h]

/-- Running the visitor over a whole scripts-style document folds JavaScript
object assignment over the empty map, provided no key of the scripts object
is itself named scripts. -/
theorem ftScripts_scriptsEvents (pairs : List (String × String))
    (h : ∀ p ∈ pairs, ¬ p.1 = "scripts") :
    ftScripts (scriptsEvents pairs) =
      pairs.foldl (fun m kv => smSet m kv.1 (.str kv.2)) [] := by
  rw [ftScripts, ftRun, scriptsEvents]
  simp only [List.foldl_cons]
  have e0 : ftStep initFT (JEvent.objBegin 0) = initFT := rfl
  have e1 : ftStep initFT (JEvent.prop "scripts" 0) =
      { initFT with inScripts := true } := by
    simp [ftStep]
  have e2 : ftStep { initFT with inScripts := true } (JEvent.objBegin 0) =
      { initFT with inScripts := true } := rfl
  rw [e0, e1, e2, List.foldl_append]
  have hmid := ftFold_pairs pairs { initFT with inScripts := true } rfl rfl h
  simp only [List.foldl_cons, List.foldl_nil]
  rw [ftStep_objEnd_scripts, ftStep_objEnd_scripts]
  exact hmid.1

/-! Claim theorems -/

/-- C1: the claim says that for well-formed tasks-array input the extractor
returns one Target per task entry with a string label, named by the label
value. The code instead binds every label value under the pending-key
variable script, which is never assigned on the tasks path (JavaScript
coerces the undefined key to the string undefined), so the two labelled
entries of tasksLabelEvents collapse into the single entry
(undefined, test) and no Target named build exists. -/
theorem findTargets_tasks_label_bug :
    ftScripts tasksLabelEvents = [("undefined", JLit.str "test")]
      ∧ smGet (ftScripts tasksLabelEvents) "build" = none
      ∧ smGet (ftScripts tasksLabelEvents) "test" = none := by
  decide

/-- C2 counterexample: the claim is false at the concrete input
nestedScriptsEvents. After the nested object value of key a closes (the
scripts object itself still being open), inScripts is already false, so a
nested object value does end the scripts context early; a property named
scripts at nesting depth two (deepScriptsPre) sets the flag, so it is not
set only at the top nesting level; and in the full document the sibling key
c of the scripts object is consequently not bound while the nested key b
is. -/
theorem inScripts_span_cex :
    (ftRun nestedScriptsPre).inScripts = false
      ∧ (ftRun deepScriptsPre).inScripts = true
      ∧ ftScripts nestedScriptsEvents = [("b", JLit.str "x")] := by
  decide

/-- C2 amended: the inScripts flag is set by a property named scripts at any
nesting level (not only the top one), and is cleared by the next ObjectEnd
event whatever object closes — in particular the close of a nested object
value inside the scripts block ends the scripts context early. -/
theorem inScripts_set_and_clear (evs : List JEvent) (o : Nat) :
    (ftRun (evs ++ [.prop "scripts" o])).inScripts = true
      ∧ (ftRun (evs ++ [.objEnd o])).inScripts = false := by
  constructor
  · rw [ftRun_append_one]
    simp [ftStep]
  · rw [ftRun_append_one]
    by_cases h : (ftRun evs).inScripts <;> simp [ftStep, h]

/-- C3 counterexample: the claim is false at the well-formed scripts-style
input whose scripts object holds the single string-valued key scripts (text
(open-brace) "scripts": (open-brace) "scripts": "x" (close-brace)
(close-brace)): the claim requires one Target named scripts with value x,
but the inner property named scripts only re-enters the scripts context
without becoming the pending key, so the value is bound under the
still-unassigned pending key and the result holds the single entry named
undefined; no Target named scripts exists. -/
theorem findTargets_scripts_key_cex :
    ftScripts (scriptsEvents [("scripts", "x")]) = [("undefined", JLit.str "x")]
      ∧ smGet (ftScripts (scriptsEvents [("scripts", "x")])) "scripts" = none := by
  decide

/-- C3 amended: for every well-formed scripts-style input whose scripts
object keys are all distinct from the literal name scripts, the extractor
returns exactly one Target per distinct key — the result keys are free of
duplicates and looking up any key yields the string literal of its last
occurrence in document order (none for keys that do not occur). -/
theorem findTargets_scripts_map (pairs : List (String × String))
    (h : ∀ p ∈ pairs, ¬ p.1 = "scripts") :
    (∀ k, smGet (ftScripts (scriptsEvents pairs)) k =
        match lastLookup pairs k with
        | some v => some (JLit.str v)
        | none => none)
      ∧ (smKeys (ftScripts (scriptsEvents pairs))).Nodup := by
  rw [ftScripts_scriptsEvents pairs h]
  refine ⟨fun k => ?_, smKeys_foldl_nodup pairs [] (by simp [smKeys])⟩
  rw [smGet_foldl]
  rcases lastLookup pairs k with _ | v <;> rfl

/-- Witness for C3 at the spec scenario input with scripts build and test:
the extractor maps test to the literal mocha. -/
theorem findTargets_scripts_map_witness :
    (∀ p ∈ [("build", "tsc -p ."), ("test", "mocha")], ¬ p.1 = "scripts")
      ∧ smGet (ftScripts (scriptsEvents [("build", "tsc -p ."), ("test", "mocha")]))
          "test" =
          match lastLookup [("build", "tsc -p ."), ("test", "mocha")] "test" with
          | some v => some (JLit.str v)
          | none => none :=
  ⟨by decide,
   (findTargets_scripts_map [("build", "tsc -p ."), ("test", "mocha")]
      (by decide)).1 "test"⟩

/-- C6: the extractor is a total function of the event sequence, so no
exception crosses its boundary; the Error event itself changes nothing, so
when the scan stops at a syntax error the result is exactly the scripts map
accumulated from the events before the error. In particular the truncated
document malformedEvents extracts the empty mapping. -/
theorem findTargets_error_partial (pre : List JEvent) (o : Nat) :
    ftRun (pre ++ [.err o]) = ftRun pre ∧ ftScripts malformedEvents = [] := by
  refine ⟨?_, by decide⟩
  rw [ftRun_append_one, ftStep_err]

/-- C7: provideYarnfiles on an uninitialized cache runs one full discovery
pass, caches and returns its result; on any initialized cache it returns the
cached tasks unchanged without running discovery; hence the call following a
first call returns the identical task sequence and does not run
discovery. -/
theorem provideYarnfiles_cached (fs : FS) :
    (provideYarnfiles fs ⟨none⟩).ran = true
      ∧ (provideYarnfiles fs ⟨none⟩).tasks = detectYarnfiles fs
      ∧ (provideYarnfiles fs ⟨none⟩).state = ⟨some (detectYarnfiles fs)⟩
      ∧ (∀ ts : List VTask,
          provideYarnfiles fs ⟨some ts⟩ = ⟨ts, ⟨some ts⟩, false⟩)
      ∧ provideYarnfiles fs (provideYarnfiles fs ⟨none⟩).state =
          ⟨(provideYarnfiles fs ⟨none⟩).tasks,
           (provideYarnfiles fs ⟨none⟩).state, false⟩ := by
  refine ⟨rfl, rfl, rfl, fun ts => rfl, rfl⟩

/-- C10: invalidating with a changed-file argument while the cache is
uninitialized reads no file and does not populate the cache — the state
stays uninitialized — so the next provideYarnfiles call runs a full
discovery pass. -/
theorem invalidate_uninitialized (fs : FS) (a : Path) :
    invalidateTasksCacheYarn fs (some a) ⟨none⟩ = (⟨none⟩, [])
      ∧ (provideYarnfiles fs ⟨none⟩).ran = true := ⟨rfl, rfl⟩

/-- C4: point invalidation on an initialized cache that also holds tasks of
another file removes exactly the tasks of the changed file (the others
survive in order), reads only that file (and only when it still exists, in
which case its fresh tasks are appended; otherwise nothing is inserted), and
the outcome depends on the file system only through the changed file —
formally, any file system agreeing with fs at the changed path produces the
same result, so no other file is re-read. -/
theorem invalidate_point (fs : FS) (a : Path) (init : List VTask)
    (h : ∃ t ∈ init, ¬ t.definition.uri = a) :
    invalidateTasksCacheYarn fs (some a) ⟨some init⟩ =
      (⟨some (init.filter (fun t => ¬ t.definition.uri = a)
          ++ (if fs.pathExists a then readYarnfile fs a else []))⟩,
       if fs.pathExists a then [a] else [])
    ∧ ∀ fs2 : FS, fs2.pathExists a = fs.pathExists a →
        fs2.read a = fs.read a → fs2.folderOf a = fs.folderOf a →
        invalidateTasksCacheYarn fs2 (some a) ⟨some init⟩ =
          invalidateTasksCacheYarn fs (some a) ⟨some init⟩ := by
  constructor
  · obtain ⟨t, ht, hne⟩ := h
    have hmem : t ∈ init.filter (fun t => ¬ t.definition.uri = a) :=
      List.mem_filter.mpr ⟨ht, by simpa using hne⟩
    have hpos :
        0 < (init.filter (fun t => ¬ t.definition.uri = a)
            ++ (if fs.pathExists a then readYarnfile fs a else [])).length := by
      rw [List.length_append]
      exact Nat.lt_of_lt_of_le (List.length_pos.mpr (List.ne_nil_of_mem hmem))
        (Nat.le_add_right _ _)
    simp only [invalidateTasksCacheYarn]
    rw [if_pos hpos]
  · intro fs2 h1 h2 h3
    have hread : readYarnfile fs2 a = readYarnfile fs a := by
      simp only [readYarnfile, findTargets, h2, h3]
    simp only [invalidateTasksCacheYarn, h1, hread]

/-- C5: an invalidation call with no file argument always resets the cache
to the uninitialized state without reading anything; a point invalidation
whose removal plus optional re-read leaves no task collapses the cache to
the uninitialized state as well; and from the uninitialized state the next
provideYarnfiles call runs a full discovery pass instead of returning an
empty cached list. -/
theorem invalidate_empty_resets :
    (∀ (fs : FS) (st : CacheState),
        invalidateTasksCacheYarn fs none st = (⟨none⟩, []))
      ∧ (∀ (fs : FS) (a : Path) (init : List VTask),
          init.filter (fun t => ¬ t.definition.uri = a)
              ++ (if fs.pathExists a then readYarnfile fs a else []) = [] →
          (invalidateTasksCacheYarn fs (some a) ⟨some init⟩).1 = ⟨none⟩)
      ∧ (∀ fs : FS, (provideYarnfiles fs ⟨none⟩).ran = true) := by
  refine ⟨fun fs st => ?_, fun fs a init h => ?_, fun fs => rfl⟩
  · rcases st with ⟨_ | ts⟩ <;> rfl
  · simp only [invalidateTasksCacheYarn, h]
    rfl

/-- Witness for C4: on the concrete two-file cache, invalidating the deleted
file A keeps exactly the task of file B and reads nothing. -/
theorem invalidate_point_witness :
    (∃ t ∈ [taskA, taskB], ¬ t.definition.uri = pathA)
      ∧ invalidateTasksCacheYarn fsDeleted (some pathA) ⟨some [taskA, taskB]⟩ =
          (⟨some ([taskA, taskB].filter (fun t => ¬ t.definition.uri = pathA)
              ++ (if fsDeleted.pathExists pathA then readYarnfile fsDeleted pathA
                  else []))⟩,
           if fsDeleted.pathExists pathA then [pathA] else []) :=
  ⟨by decide, (invalidate_point fsDeleted pathA [taskA, taskB] (by decide)).1⟩

/-- Witness for C5: invalidating the deleted file A on a cache holding only
tasks of A leaves the empty list, and the cache collapses to the
uninitialized state. -/
theorem invalidate_empty_resets_witness :
    ([taskA].filter (fun t => ¬ t.definition.uri = pathA)
        ++ (if fsDeleted.pathExists pathA then readYarnfile fsDeleted pathA
            else []) = [])
      ∧ (invalidateTasksCacheYarn fsDeleted (some pathA) ⟨some [taskA]⟩).1 =
          ⟨none⟩ :=
  ⟨by decide, invalidate_empty_resets.2.1 fsDeleted pathA [taskA] (by decide)⟩

/-- C8: for a config file at folderPath ++ slash ++ rest inside a non-root
workspace folder, the materialized task runs the hard-coded runner — the
ShellExecution command npx with arguments [yarn, target], none of which can
derive from file content since createYarnTask never receives any — its
working directory is the directory containing the config file (prepending
the base name recovers the file path), the recorded relative path is the
directory of the file relative to the folder root (prepending folder, slash
and appending the base name recovers the file path), and it is empty when
the file sits at the folder root. -/
theorem createYarnTask_spec (target cmd : String) (a b u : Path)
    (ha : a ≠ []) (hu : u = a ++ '/' :: b) :
    (createYarnTask target cmd a u).execCommand = "npx"
      ∧ (createYarnTask target cmd a u).execArgs = ["yarn", target]
      ∧ (createYarnTask target cmd a u).execCwd ++ '/' :: baseName u = u
      ∧ a ++ '/' :: ((createYarnTask target cmd a u).definition.path
          ++ baseName u) = u
      ∧ (¬ '/' ∈ b → (createYarnTask target cmd a u).definition.path = []) := by
  have hifLen : ∀ l : Path, (if l.length ≠ 0 then l else []) = l := by
    intro l
    cases l <;> simp
  subst hu
  have hrel : getRelativePath a (a ++ '/' :: b) = dirPart b := by
    rw [getRelativePath, dirPart_append,
      show a ++ '/' :: dirPart b = (a ++ ['/']) ++ dirPart b by simp,
      show a.length + 1 = (a ++ ['/']).length by simp]
    exact List.drop_left _ _
  have hbase : baseName (a ++ '/' :: b) = baseName b := baseName_append a b
  have hpath :
      (createYarnTask target cmd a (a ++ '/' :: b)).definition.path =
        dirPart b := by
    show (if (getRelativePath a (a ++ '/' :: b)).length ≠ 0 then
        getRelativePath a (a ++ '/' :: b) else []) = dirPart b
    rw [hrel, hifLen]
  refine ⟨rfl, rfl, ?_, ?_, ?_⟩
  · show dirname (a ++ '/' :: b) ++ '/' :: baseName (a ++ '/' :: b) =
      a ++ '/' :: b
    have hd : dirPart (a ++ '/' :: b) = a ++ '/' :: dirPart b :=
      dirPart_append a b
    have hne : ¬ dirPart (a ++ '/' :: b) = [] := by
      rw [hd]
      simp
    have hne2 : ¬ dirPart (a ++ '/' :: b) = ['/'] := by
      rw [hd]
      intro h
      have hlen := congrArg List.length h
      simp [List.length_append] at hlen
      exact ha (List.length_eq_zero.mp (by omega))
    rcases dirPart_ends_slash (a ++ '/' :: b) with h | ⟨e, he⟩
    · exact absurd h hne
    · have hdn : dirname (a ++ '/' :: b) = (dirPart (a ++ '/' :: b)).dropLast := by
        simp only [dirname]
        rw [if_neg hne, if_neg hne2]
      rw [hdn, he, List.dropLast_concat]
      calc
        e ++ '/' :: baseName (a ++ '/' :: b)
            = (e ++ ['/']) ++ baseName (a ++ '/' :: b) := by simp
        _ = dirPart (a ++ '/' :: b) ++ baseName (a ++ '/' :: b) := by rw [he]
        _ = a ++ '/' :: b := dirPart_append_baseName _
  · rw [hpath, hbase, dirPart_append_baseName]
  · intro hslash
    rw [hpath]
    exact dirPart_eq_nil b hslash

/-- C9 counterexample: the claim says names containing clean are classified
into the Clean group so that build and clean targets of one file receive
different groups; on fsBuildClean the code materializes the targets build
and clean from the same file and assigns both the Build group. -/
theorem readYarnfile_group_cex :
    (readYarnfile fsBuildClean pathBC).map (fun t => t.name) = ["build", "clean"]
      ∧ (readYarnfile fsBuildClean pathBC).map (fun t => t.group)
          = [some TaskGroup.build, some TaskGroup.build] := by
  decide

/-- C9 amended: group classification does not depend on the target name at
all — readYarnfile assigns TaskGroup.Build to every task it materializes, so
build and clean targets of one file receive the same group. -/
theorem readYarnfile_group_build (fs : FS) (u : Path) :
    (readYarnfile fs u).all (fun t => t.group = some TaskGroup.build) = true := by
  rw [readYarnfile]
  cases hf : fs.folderOf u with
  | none => rfl
  | some folder =>
      simp only [List.all_eq_true]
      intro t ht
      rcases List.mem_map.mp ht with ⟨kv, _, rfl⟩
      rfl

/-- Witness for C8 at the spec scenario: the folder /repo with the file
/repo/package.json; the working directory prepended to the base name gives
back the file path (the working directory computes to /repo). -/
theorem createYarnTask_spec_witness :
    ("/repo".data ≠ ([] : Path))
      ∧ (createYarnTask "build" "build" "/repo".data
            ("/repo".data ++ '/' :: "package.json".data)).execCwd
          ++ '/' :: baseName ("/repo".data ++ '/' :: "package.json".data)
          = "/repo".data ++ '/' :: "package.json".data :=
  ⟨by decide,
   (createYarnTask_spec "build" "build" "/repo".data "package.json".data
      ("/repo".data ++ '/' :: "package.json".data) (by decide) rfl).2.2.1⟩

end TaskExplorer
